import Mathlib

/-!
Verification of the geospatial core of the cook_county_real_estate repository.

The repository joins Cook County parcel point datasets against polygon layers
(census tracts, assessor neighborhoods, flood zones, noise zones) using three
core operations:

- src/myccao/utils.py, make_point_in_polygon_feature (the zone membership
  tagger): appends a boolean column to a point dataset that is true for the
  rows the spatial index reports as intersecting the unioned zone geometry;
- src/myccao/utils.py, split_cc_census_tracts_by_neighborhood (the overlay
  engine): intersects every census tract with every intersecting neighborhood
  polygon and validates the tract attributes carried by both join halves;
- src/myccao/property_characteristics.py,
  extend_cc_residential_prop_chars_ohare_noise_zone (contiguous label
  extension): extends the OHare-noise boolean label to every point within the
  convex hull of the currently labeled points.

Modelling choices, shared by all definitions below:

- shapely geometries are manipulated by the source only through pure
  set-theoretic predicates and operations (intersects, within, union,
  intersection, convex hull).  A geometry is therefore modeled extensionally
  as a finite set of integer-coordinate points of the plane; a point feature
  is a singleton.  Set union/intersection model the shapely operations of the
  same name, nonempty intersection models `intersects`, and membership in the
  closed convex hull of a finite point set models `within` against the hull
  polygon.
- a pandas/geopandas dataframe is modeled by its index-label list, its
  geometry column and its named boolean attribute columns; `.loc` assignment
  is label-based, while spatial-index queries return positional row numbers,
  exactly as in pandas.
- fallible steps (a pandas KeyError on a missing label, an uncaught exception
  on an empty geometry selection) are modeled with Option/Except.
-/

/-- A point of the plane (integer coordinates suffice for every property and
counterexample below). -/
abbrev Pt : Type := ℤ × ℤ

/-- A geometry, modeled extensionally as a finite set of points of the plane.
A parcel point geometry is a singleton; a polygon is the set of points it
covers. -/
abbrev Geom : Type := Finset Pt

/-- geopandas `GeoSeries.unary_union`: the union of all geometries of a layer.
For an empty layer this is the empty geometry (the empty union of shapely), which
intersects nothing. -/
def unary_union (gs : List Geom) : Geom := gs.foldr (fun g acc => g ∪ acc) ∅

/-- Twice the signed area of the triangle a b c: the 2D cross product of
b - a and c - a.  Zero exactly when the three points are collinear. -/
def cross2 (a b c : Pt) : ℤ :=
  (b.1 - a.1) * (c.2 - a.2) - (b.2 - a.2) * (c.1 - a.1)

/-- p lies on the closed segment from a to b: collinear with a and b and
inside their bounding box. -/
def onSegment (a b p : Pt) : Bool :=
  cross2 a b p == 0 &&
    decide (min a.1 b.1 ≤ p.1 ∧ p.1 ≤ max a.1 b.1 ∧
            min a.2 b.2 ≤ p.2 ∧ p.2 ≤ max a.2 b.2)

/-- p lies in the closed triangle with vertices a b c.  For a non-degenerate
triangle this is the standard orientation test (all three cross products on
one side); for collinear vertices the triangle degenerates to the union of
the three closed segments. -/
def inTriangle (a b c p : Pt) : Bool :=
  if cross2 a b c == 0 then
    onSegment a b p || onSegment b c p || onSegment a c p
  else
    (decide (0 ≤ cross2 a b p) && decide (0 ≤ cross2 b c p) &&
      decide (0 ≤ cross2 c a p)) ||
    (decide (cross2 a b p ≤ 0) && decide (cross2 b c p ≤ 0) &&
      decide (cross2 c a p ≤ 0))

/-- Membership of p in the closed convex hull of the finite point set s
(shapely `.convex_hull` followed by a containment test).  By Caratheodory in
the plane, p is in the hull iff it is in the closed triangle spanned by some
three (not necessarily distinct) points of s. -/
def inHull (s : Finset Pt) (p : Pt) : Bool :=
  decide (∃ a ∈ s, ∃ b ∈ s, ∃ c ∈ s, inTriangle a b c p = true)

/-- shapely `geom.within(hull_polygon)` for the hull region of the point set
s: the geometry is nonempty and every one of its points lies in the hull
(an empty geometry is within nothing). -/
def within_hull (s : Finset Pt) (g : Geom) : Bool :=
  decide g.Nonempty && decide (∀ p ∈ g, inHull s p = true)

/-- A geopandas GeoDataFrame of point features, as the tagger sees it: the
pandas index labels (one per row), the geometry column and the named boolean
attribute columns.  Row j of the frame is position j of each list. -/
structure GeoDF where
  idx : List ℤ
  geoms : List Geom
  cols : List (String × List Bool)
deriving DecidableEq

/-- Number of rows of the frame. -/
def GeoDF.nrows (g : GeoDF) : Nat := g.idx.length

/-- pandas column assignment `df[name] = vals`: replace the column of that
name in place if it exists, else append it as the last column. -/
def setCol (g : GeoDF) (name : String) (vals : List Bool) : GeoDF :=
  if g.cols.any (fun c => c.1 == name) then
    { g with cols := g.cols.map (fun c => if c.1 == name then (c.1, vals) else c) }
  else
    { g with cols := g.cols ++ [(name, vals)] }

/-- Column lookup by name (the first column of that name, as in pandas where
column names are unique). -/
def getCol (g : GeoDF) (name : String) : Option (List Bool) :=
  (g.cols.find? (fun c => c.1 == name)).map (fun c => c.2)

/-- The boolean value of column `name` at row position j (false when the
column or the row is absent). -/
def colVal (g : GeoDF) (name : String) (j : Nat) : Bool :=
  ((getCol g name).getD []).getD j false

/-- The effect of `df.loc[labels, name] = True` on one column: the value at a
row becomes true when the row label is one of the assigned labels, and keeps
its old value otherwise. -/
def setTrueAt (labels : List ℤ) (idx : List ℤ) (vals : List Bool) : List Bool :=
  List.zipWith (fun l v => labels.contains l || v) idx vals

/-- pandas `df.loc[labels, name] = True`: label-based assignment.  When every
label occurs in the index, the named column is updated row-wise; when some
label is missing, pandas raises a KeyError (modeled as none). -/
def locSetTrue (g : GeoDF) (name : String) (labels : List ℤ) : Option GeoDF :=
  if labels.all (fun l => g.idx.contains l) then
    some { g with
            cols := g.cols.map (fun c =>
              if c.1 == name then (c.1, setTrueAt labels g.idx c.2) else c) }
  else none

/-- geopandas `gdf.sindex.query(q, predicate = "intersects")`: the positional
row numbers of the frame geometries that intersect the query geometry. -/
def sindex_query_intersects (geoms : List Geom) (q : Geom) : List Nat :=
  (List.range geoms.length).filter (fun i => decide ((geoms.getD i ∅) ∩ q).Nonempty)

/-- The index labels that `make_point_in_polygon_feature` passes to `.loc`:
the positional query results, used as labels. -/
def query_labels (gdf : GeoDF) (zone_geoms : List Geom) : List ℤ :=
  (sindex_query_intersects gdf.geoms (unary_union zone_geoms)).map Int.ofNat

/-- src/myccao/utils.py lines 517-528, make_point_in_polygon_feature:
form the union of the zone layer geometries, query the spatial index of the
point frame for the positions intersecting it, set the zone column to False
everywhere and then to True at those positions used as index labels.
The trailing `astype("boolean")` only changes the column dtype, not its
values, and is therefore invisible in this model.  The zone layer is passed
as its geometry column (`zone_gdf[geom_col]`). -/
def make_point_in_polygon_feature (gdf : GeoDF) (zone_geoms : List Geom)
    (zone_descr : String) : Option GeoDF :=
  let gdf1 := setCol gdf zone_descr (List.replicate gdf.nrows false)
  locSetTrue gdf1 zone_descr (query_labels gdf zone_geoms)

/-- The state of the dataframe object of the caller after a call to
make_point_in_polygon_feature.  The source assigns columns on its `gdf`
argument in place (no `.copy()`), so the object held by the caller is the returned
frame on success; if the label assignment raises, the all-False column
assignment has already happened in place. -/
def make_point_in_polygon_feature_caller_gdf (gdf : GeoDF)
    (zone_geoms : List Geom) (zone_descr : String) : GeoDF :=
  match make_point_in_polygon_feature gdf zone_geoms zone_descr with
  | some out => out
  | none => setCol gdf zone_descr (List.replicate gdf.nrows false)

/-- The membership column described by the specification, for comparison with
the source translation: false by default, true for exactly the rows whose
geometry intersects the unioned zone geometry. -/
def membership_column_spec (gdf : GeoDF) (zone_geoms : List Geom) : List Bool :=
  gdf.geoms.map (fun g => decide ((g ∩ unary_union zone_geoms).Nonempty))

/-- A row of the residential property characteristics frame, as the noise
extension sees it: the point geometry and the boolean OHare Noise column
(named with an apostrophe in the source; other columns are untouched by the
operation and omitted). -/
structure NoiseRow where
  geom : Geom
  ohare_noise : Bool
deriving DecidableEq

/-- The union of the geometries of the rows currently labeled true, whose
convex hull the extension uses (`ohare_noise_gdf["geometry"].unary_union`). -/
def truePts (rows : List NoiseRow) : Finset Pt :=
  unary_union ((rows.filter (fun r => r.ohare_noise)).map (fun r => r.geom))

/-- src/myccao/property_characteristics.py lines 817-830,
extend_cc_residential_prop_chars_ohare_noise_zone: copy the frame, select the
rows whose OHare Noise value is true, take the convex hull of the union of
their geometries, and set OHare Noise to true for every row of the full
frame whose geometry is within that hull.

When no row is labeled true the selection is empty: geopandas returns None
(or an empty geometry) for the union of an empty selection, and the source
then crashes with an uncaught exception (None has no attribute convex_hull;
with an empty-geometry union, the `.loc[0, "geometry"]` read of the empty
one-row slice raises a KeyError instead).  Either way the call dies with an
uncaught, undescriptive exception, modeled as the error below. -/
def extend_cc_residential_prop_chars_ohare_noise_zone (rows : List NoiseRow) :
    Except String (List NoiseRow) :=
  let trues := rows.filter (fun r => r.ohare_noise)
  if trues.isEmpty then
    Except.error "uncaught exception from the empty OHare Noise selection"
  else
    Except.ok (rows.map (fun r =>
      if within_hull (truePts rows) r.geom then { r with ohare_noise := true } else r))

/-- The state of the dataframe object of the caller after a call to the noise
extension: the first source line is `gdf = gdf.copy()`, so the
object is never written to. -/
def extend_cc_residential_prop_chars_ohare_noise_zone_caller_gdf
    (rows : List NoiseRow) : List NoiseRow := rows

/-- The tract attribute columns that the validation step of the overlay compares
between the left (tract) frame and the right (neighborhood) frame: exactly
the eleven columns of the assert in src/myccao/utils.py lines 444-459. -/
structure TractAttrs where
  STATEFP10 : String
  COUNTYFP10 : String
  TRACTCE10 : String
  GEOID10 : String
  NAME10 : String
  NAMELSAD10 : String
  MTFCC10 : String
  FUNCSTAT10 : String
  ALAND10 : ℤ
  INTPTLAT10 : String
  INTPTLON10 : String
deriving DecidableEq

/-- A census tract row: its identifying attributes, its water area (used only
by the sentinel filter) and its polygon geometry. -/
structure TractRow where
  attrs : TractAttrs
  AWATER10 : ℤ
  geometry : Geom
deriving DecidableEq

/-- A neighborhood row of the cc_nbhd_gdf frame: the three retained
attribute columns and the polygon geometry. -/
structure NbhdRow where
  nbhd : String
  town_nbhd : String
  township_n : String
  geometry : Geom
deriving DecidableEq

/-- One output fragment of the overlay: the tract attributes from the left
(tract) frame, the tract attributes carried onto the neighborhood row by the
spatial join (the `_2` copy), the neighborhood attributes, and the
intersection geometry. -/
structure Frag where
  tract_attrs_left : TractAttrs
  tract_attrs_right : TractAttrs
  nbhd : String
  town_nbhd : String
  township_n : String
  geometry : Geom
deriving DecidableEq

/-- `cc_nbhd_gdf.sjoin(tract_geom, how="inner", predicate="intersects")`:
the neighborhood rows whose geometry intersects the (single) tract row, each
carrying the attribute columns of the tract from the right side of the join. -/
def tract_sjoin (nbhds : List NbhdRow) (t : TractRow) : List (NbhdRow × TractAttrs) :=
  (nbhds.filter (fun nb => decide (nb.geometry ∩ t.geometry).Nonempty)).map
    (fun nb => (nb, t.attrs))

/-- `tract_geom.overlay(nbhd_geom, how="intersection")` for one tract row and
one joined neighborhood row: a single fragment whose geometry is the
intersection when it is nonempty, and no row at all when the intersection is
empty. -/
def overlay_tract_nbhd (t : TractRow) (jrow : NbhdRow × TractAttrs) : List Frag :=
  if (t.geometry ∩ jrow.1.geometry).Nonempty then
    [{ tract_attrs_left := t.attrs
       tract_attrs_right := jrow.2
       nbhd := jrow.1.nbhd
       town_nbhd := jrow.1.town_nbhd
       township_n := jrow.1.township_n
       geometry := t.geometry ∩ jrow.1.geometry }]
  else []

/-- The rows of the concatenated per-neighborhood overlay results for one
tract: the contents of the cc_nbhd_gdf_geoms frames of the inner loop
(lines 435-438), flattened. -/
def tract_fragment_rows (nbhds : List NbhdRow) (t : TractRow) : List Frag :=
  (tract_sjoin nbhds t).flatMap (overlay_tract_nbhd t)

/-- All fragments produced for one tract (the inner loop of
split_cc_census_tracts_by_neighborhood, lines 428-440).  The inner
`pd.concat(cc_nbhd_gdf_geoms)` at line 439 concatenates one overlay frame
per spatial-join row; when the join finds no intersecting neighborhood the
list is empty and pd.concat raises a ValueError. -/
def tract_fragments (nbhds : List NbhdRow) (t : TractRow) :
    Except String (List Frag) :=
  if (tract_sjoin nbhds t).isEmpty then
    Except.error "ValueError: No objects to concatenate"
  else
    Except.ok (tract_fragment_rows nbhds t)

/-- `census_tract10_gdf["AWATER10"].max()`. -/
def maxAWATER (tracts : List TractRow) : ℤ :=
  (tracts.map (fun t => t.AWATER10)).foldr max 0

/-- The water-sentinel filter (lines 419-424): drop every tract whose water
area equals the maximum water area observed across all tracts. -/
def water_filtered (tracts : List TractRow) : List TractRow :=
  tracts.filter (fun t => !(t.AWATER10 == maxAWATER tracts))

/-- The loop over the kept tracts (lines 427-440) followed by the outer
concatenation: the first per-tract ValueError aborts the run, and a
successful run concatenates the per-tract fragment lists in order. -/
def overlay_loop (nbhds : List NbhdRow) : List TractRow → Except String (List Frag)
  | [] => Except.ok []
  | t :: ts =>
    (tract_fragments nbhds t).bind fun tf =>
      (overlay_loop nbhds ts).map fun rest => tf ++ rest

/-- The concatenated raw overlay output (lines 427-443): the fragments of
every tract that survives the water-sentinel filter.  When the filter keeps
no tract at all, all_split_tracts is empty and `pd.concat(all_split_tracts)`
at line 442 raises a ValueError. -/
def split_raw (tracts : List TractRow) (nbhds : List NbhdRow) :
    Except String (List Frag) :=
  if (water_filtered tracts).isEmpty then
    Except.error "ValueError: No objects to concatenate"
  else
    overlay_loop nbhds (water_filtered tracts)

/-- One fragment passes the validation when its eleven asserted tract
attribute columns agree between the left and the right copy. -/
def tract_attrs_consistent (f : Frag) : Bool :=
  f.tract_attrs_left == f.tract_attrs_right

/-- The validation step (the assert of lines 444-459): when every fragment has
left and right tract attributes agree the frame passes through; otherwise
the assert raises an AssertionError, so the function never returns. -/
def validate_split_tracts (frags : List Frag) : Except String (List Frag) :=
  if frags.all tract_attrs_consistent then Except.ok frags
  else Except.error "AssertionError"

/-- src/myccao/utils.py lines 405-490, split_cc_census_tracts_by_neighborhood,
parameterized by the two loaded layers (the loaders are I/O collaborators
outside the core).  The steps after the validation (dropping the duplicated
`_2` columns, the category and float casts, the representative point) do not
change the geometry or left tract attributes of any fragment and are omitted. -/
def split_cc_census_tracts_by_neighborhood (tracts : List TractRow)
    (nbhds : List NbhdRow) : Except String (List Frag) :=
  (split_raw tracts nbhds).bind validate_split_tracts

/-! Concrete inputs used by the witnesses and counterexamples below. -/

/-- A three-point frame with the default range index 0, 1, 2 and one
pre-existing attribute column. -/
def gdfW : GeoDF :=
  { idx := [0, 1, 2]
    geoms := [{(0, 0)}, {(4, 4)}, {(10, 10)}]
    cols := [("old_col", [true, false, true])] }

/-- A small zone layer: one polygon covering the first point of gdfW. -/
def zoneA : List Geom := [{(0, 0)}]

/-- A superset zone layer: the zoneA polygon plus one covering the second
point. -/
def zoneB : List Geom := [{(0, 0)}, {(4, 4)}]

/-- A two-point frame whose index labels are NOT in positional order: the row
at position 0 has label 1 and the row at position 1 has label 0. -/
def gdfX : GeoDF :=
  { idx := [1, 0]
    geoms := [{(0, 0)}, {(5, 5)}]
    cols := [] }

/-- A one-point frame with no attribute columns. -/
def gdfC : GeoDF := { idx := [0], geoms := [{(0, 0)}], cols := [] }

/-- Four point rows: two labeled true at opposite corners, one unlabeled
point on the segment between them, one unlabeled point outside the hull. -/
def rowsW : List NoiseRow :=
  [{ geom := {(0, 0)}, ohare_noise := true },
   { geom := {(4, 4)}, ohare_noise := true },
   { geom := {(2, 2)}, ohare_noise := false },
   { geom := {(9, 9)}, ohare_noise := false }]

/-- A frame in which no row is labeled true. -/
def rowsF : List NoiseRow := [{ geom := {(0, 0)}, ohare_noise := false }]

/-- What the tagger returns on gdfW and zoneA. -/
def outAW : GeoDF :=
  { idx := [0, 1, 2]
    geoms := gdfW.geoms
    cols := [("old_col", [true, false, true]), ("near", [true, false, false])] }

/-- What the tagger returns on gdfW and zoneB. -/
def outBW : GeoDF :=
  { idx := [0, 1, 2]
    geoms := gdfW.geoms
    cols := [("old_col", [true, false, true]), ("near", [true, true, false])] }

/-- What the noise extension returns on rowsW: the point on the segment
between the two true corners is relabeled, the point outside the hull is
not. -/
def outRW : List NoiseRow :=
  [{ geom := {(0, 0)}, ohare_noise := true },
   { geom := {(4, 4)}, ohare_noise := true },
   { geom := {(2, 2)}, ohare_noise := true },
   { geom := {(9, 9)}, ohare_noise := false }]

/-- Sample tract attribute values. -/
def attrsA : TractAttrs :=
  { STATEFP10 := "17", COUNTYFP10 := "031", TRACTCE10 := "010100"
    GEOID10 := "17031010100", NAME10 := "101", NAMELSAD10 := "Census Tract 101"
    MTFCC10 := "G5020", FUNCSTAT10 := "S", ALAND10 := 100
    INTPTLAT10 := "+41.9", INTPTLON10 := "-87.6" }

/-- Different sample tract attribute values. -/
def attrsB : TractAttrs :=
  { STATEFP10 := "17", COUNTYFP10 := "031", TRACTCE10 := "010200"
    GEOID10 := "17031010200", NAME10 := "102", NAMELSAD10 := "Census Tract 102"
    MTFCC10 := "G5020", FUNCSTAT10 := "S", ALAND10 := 200
    INTPTLAT10 := "+41.8", INTPTLON10 := "-87.5" }

/-- A tract that survives the water filter. -/
def tractT : TractRow :=
  { attrs := attrsA, AWATER10 := 0, geometry := {(0, 0), (0, 1), (1, 0), (1, 1)} }

/-- The most-watery tract, removed by the sentinel filter. -/
def tractU : TractRow := { attrs := attrsB, AWATER10 := 50, geometry := {(8, 8)} }

/-- A neighborhood polygon overlapping part of tractT. -/
def nbW : NbhdRow :=
  { nbhd := "100", town_nbhd := "77100", township_n := "JEFFERSON"
    geometry := {(1, 0), (1, 1), (2, 1)} }

/-- The raw overlay output for the layers [tractT, tractU] and [nbW]: the
one fragment of the kept tract tractT. -/
def fragsTW : List Frag :=
  [{ tract_attrs_left := tractT.attrs, tract_attrs_right := tractT.attrs
     nbhd := nbW.nbhd, town_nbhd := nbW.town_nbhd, township_n := nbW.township_n
     geometry := tractT.geometry ∩ nbW.geometry }]

/-- A fragment whose two tract attribute copies disagree. -/
def fragBad : Frag :=
  { tract_attrs_left := attrsA, tract_attrs_right := attrsB
    nbhd := "100", town_nbhd := "77100", township_n := "JEFFERSON"
    geometry := ∅ }

/-! Helper lemmas. -/

/-- Membership of a point in the union of a list of geometries. -/
theorem mem_unary_union {p : Pt} {gs : List Geom} :
    p ∈ unary_union gs ↔ ∃ g ∈ gs, p ∈ g := by
  induction gs with
  | nil => simp [unary_union]
  | cons g gs ih =>
    simp only [unary_union, List.foldr_cons, Finset.mem_union, List.mem_cons]
    constructor
    · rintro (hp | hp)
      · exact ⟨g, Or.inl rfl, hp⟩
      · obtain ⟨g1, hg1, hp1⟩ := ih.mp hp
        exact ⟨g1, Or.inr hg1, hp1⟩
    · rintro ⟨g1, (rfl | hg1), hp1⟩
      · exact Or.inl hp1
      · exact Or.inr (ih.mpr ⟨g1, hg1, hp1⟩)

/-- setCol never changes the index. -/
theorem setCol_idx (g : GeoDF) (d : String) (v : List Bool) :
    (setCol g d v).idx = g.idx := by
  unfold setCol; split <;> rfl

/-- setCol never changes the geometry column. -/
theorem setCol_geoms (g : GeoDF) (d : String) (v : List Bool) :
    (setCol g d v).geoms = g.geoms := by
  unfold setCol; split <;> rfl

/-- Looking up the assigned column after replacing it in place. -/
theorem find?_replace_map (l : List (String × List Bool)) (d : String)
    (v : List Bool) (h : l.any (fun c => c.1 == d) = true) :
    (((l.map fun c => if c.1 == d then (c.1, v) else c).find?
      (fun c => c.1 == d)).map (fun c => c.2)) = some v := by
  induction l with
  | nil => simp at h
  | cons c cs ih =>
    by_cases hc : (c.1 == d) = true
    · simp [List.find?, hc]
    · have hc' : (c.1 == d) = false := by
        cases h2 : (c.1 == d) <;> simp_all
      have h' : cs.any (fun c => c.1 == d) = true := by
        simp [List.any_cons, hc'] at h
        simpa using h
      simpa [List.find?, hc'] using ih h'

/-- Looking up the assigned column after appending it as a fresh column. -/
theorem find?_append_fresh (l : List (String × List Bool)) (d : String)
    (v : List Bool) (h : l.any (fun c => c.1 == d) = false) :
    (((l ++ [(d, v)]).find? (fun c => c.1 == d)).map (fun c => c.2)) = some v := by
  induction l with
  | nil => simp [List.find?]
  | cons c cs ih =>
    have hc : (c.1 == d) = false := by
      cases h2 : (c.1 == d) <;> simp_all
    have h' : cs.any (fun c => c.1 == d) = false := by
      simp [List.any_cons, hc] at h
      simpa using h
    simpa [List.find?, hc] using ih h'

/-- After a pandas column assignment, reading the column gives the assigned
values. -/
theorem getCol_setCol (g : GeoDF) (d : String) (v : List Bool) :
    getCol (setCol g d v) d = some v := by
  unfold getCol setCol
  by_cases h : g.cols.any (fun c => c.1 == d) = true
  · simpa [h] using find?_replace_map g.cols d v h
  · have h' : g.cols.any (fun c => c.1 == d) = false := by
      cases h2 : g.cols.any (fun c => c.1 == d) <;> simp_all
    simpa [h'] using find?_append_fresh g.cols d v h'

/-- Updating the named column commutes with looking it up. -/
theorem find?_update_map (l : List (String × List Bool)) (d : String)
    (f : List Bool → List Bool) :
    ((l.map fun c => if c.1 == d then (c.1, f c.2) else c).find?
      (fun c => c.1 == d)) =
    ((l.find? (fun c => c.1 == d)).map (fun c => (c.1, f c.2))) := by
  induction l with
  | nil => simp
  | cons c cs ih =>
    by_cases hc : (c.1 == d) = true
    · simp [List.find?, hc]
    · have hc' : (c.1 == d) = false := by
        cases h2 : (c.1 == d) <;> simp_all
      simpa [List.find?, hc'] using ih

/-- Row-wise value of a label-based column assignment. -/
theorem setTrueAt_get? (labels : List ℤ) (idx : List ℤ) (vals : List Bool)
    (j : Nat) (l : ℤ) (v : Bool) (hl : idx.get? j = some l)
    (hv : vals.get? j = some v) :
    (setTrueAt labels idx vals).get? j = some (labels.contains l || v) := by
  induction idx generalizing vals j with
  | nil => simp at hl
  | cons a idx ih =>
    cases vals with
    | nil => simp at hv
    | cons b vs =>
      cases j with
      | zero =>
        simp only [List.get?] at hl hv
        cases hl; cases hv
        rfl
      | succ j =>
        simp only [List.get?] at hl hv
        simpa [setTrueAt, List.zipWith] using ih vs j hl hv

/-- Length of a label-based column assignment. -/
theorem setTrueAt_length (labels : List ℤ) (idx : List ℤ) (vals : List Bool) :
    (setTrueAt labels idx vals).length = min idx.length vals.length := by
  simp [setTrueAt]

/-- What a successful tagger call returns: the index and geometry columns of
the input, and the zone column holding the all-False column updated at the
queried labels. -/
theorem make_pipf_some (gdf : GeoDF) (z : List Geom) (d : String) (out : GeoDF)
    (h : make_point_in_polygon_feature gdf z d = some out) :
    out.idx = gdf.idx ∧ out.geoms = gdf.geoms ∧
      getCol out d = some (setTrueAt (query_labels gdf z) gdf.idx
        (List.replicate gdf.nrows false)) := by
  unfold make_point_in_polygon_feature locSetTrue at h
  dsimp only at h
  split at h
  case isFalse => exact absurd h (by simp)
  case isTrue hall =>
    have hout := (Option.some.inj h).symm
    subst hout
    refine ⟨setCol_idx _ _ _, setCol_geoms _ _ _, ?_⟩
    show ((((setCol gdf d (List.replicate gdf.nrows false)).cols.map
      (fun c => if c.1 == d then
        (c.1, setTrueAt (query_labels gdf z)
          (setCol gdf d (List.replicate gdf.nrows false)).idx c.2) else c)).find?
      (fun c => c.1 == d)).map (fun c => c.2)) = _
    rw [find?_update_map]
    have hg : getCol (setCol gdf d (List.replicate gdf.nrows false)) d =
        some (List.replicate gdf.nrows false) := getCol_setCol gdf d _
    unfold getCol at hg
    rcases hfind : (setCol gdf d (List.replicate gdf.nrows false)).cols.find?
        (fun c => c.1 == d) with _ | c0
    · rw [hfind] at hg; simp at hg
    · rw [hfind] at hg
      rw [hfind]
      simp only [Option.map_some'] at hg ⊢
      rw [Option.some.injEq] at hg
      rw [hg, setCol_idx]

/-- A position with a value is inside the list. -/
theorem lt_length_of_get?_some {α : Type} {l : List α} {j : Nat} {a : α}
    (h : l.get? j = some a) : j < l.length := by
  by_contra hc
  rw [List.get?_eq_none.mpr (by omega)] at h
  exact absurd h (by simp)

/-- getD agrees with a present get?. -/
theorem getD_eq_of_get?_some {α : Type} {l : List α} {j : Nat} {a : α}
    (d : α) (h : l.get? j = some a) : l.getD j d = a := by
  rw [List.getD_eq_getElem?_getD, ← List.get?_eq_getElem?, h]
  rfl

/-- getD beyond the end of the list gives the fallback. -/
theorem getD_eq_of_len_le {α : Type} {l : List α} {j : Nat}
    (d : α) (h : l.length ≤ j) : l.getD j d = d := by
  rw [List.getD_eq_getElem?_getD, ← List.get?_eq_getElem?,
    List.get?_eq_none.mpr h]
  rfl

/-- get? of replicate inside the length. -/
theorem get?_replicate_of_lt {α : Type} (a : α) (n j : Nat) (hj : j < n) :
    (List.replicate n a).get? j = some a := by
  induction n generalizing j with
  | zero => omega
  | succ n ih =>
    cases j with
    | zero => rfl
    | succ j => simpa [List.replicate] using ih j (by omega)

/-- contains on integer lists is membership. -/
theorem contains_iff_mem_int (l : List ℤ) (a : ℤ) :
    l.contains a = true ↔ a ∈ l := by
  simp [List.contains]

/-- The label list the tagger queries: the positions of the geometries that
intersect the zone union, as integers. -/
theorem mem_query_labels (gdf : GeoDF) (z : List Geom) (l : ℤ) :
    l ∈ query_labels gdf z ↔
      ∃ i : Nat, i < gdf.geoms.length ∧
        ((gdf.geoms.getD i ∅) ∩ unary_union z).Nonempty ∧ l = Int.ofNat i := by
  unfold query_labels sindex_query_intersects
  simp only [List.mem_map, List.mem_filter, List.mem_range, decide_eq_true_eq]
  constructor
  · rintro ⟨i, ⟨hi, hne⟩, rfl⟩
    exact ⟨i, hi, hne, rfl⟩
  · rintro ⟨i, hi, hne, rfl⟩
    exact ⟨i, ⟨hi, hne⟩, rfl⟩

/-- The value of the zone column after a successful tagger call: true exactly
when the pandas index label of the row is one of the queried labels. -/
theorem make_pipf_colVal (gdf : GeoDF) (z : List Geom) (d : String) (out : GeoDF)
    (h : make_point_in_polygon_feature gdf z d = some out) (j : Nat) :
    colVal out d j =
      ((gdf.idx.get? j).map (fun l => (query_labels gdf z).contains l)).getD false := by
  obtain ⟨-, -, hcol⟩ := make_pipf_some gdf z d out h
  unfold colVal
  rw [hcol]
  simp only [Option.getD_some]
  rcases hidx : gdf.idx.get? j with _ | l
  · have hge : gdf.idx.length ≤ j := by
      by_contra hc
      rcases List.get?_eq_get (l := gdf.idx) (n := j) (by omega) with h2
      rw [h2] at hidx
      exact absurd hidx (by simp)
    have hlen : (setTrueAt (query_labels gdf z) gdf.idx
        (List.replicate gdf.nrows false)).length ≤ j := by
      rw [setTrueAt_length]
      simp only [List.length_replicate, GeoDF.nrows]
      omega
    rw [getD_eq_of_len_le false hlen]
    rfl
  · have hj : j < gdf.idx.length := lt_length_of_get?_some hidx
    have hv : (List.replicate gdf.nrows false).get? j = some false :=
      get?_replicate_of_lt false gdf.nrows j (by simpa [GeoDF.nrows] using hj)
    rw [getD_eq_of_get?_some false
      (setTrueAt_get? (query_labels gdf z) gdf.idx _ j l false hidx hv)]
    simp

/-- Every label position produced for a default-range-index frame is a label
of that frame. -/
theorem query_labels_mem_idx (gdf : GeoDF) (z : List Geom)
    (hwf : gdf.geoms.length = gdf.idx.length)
    (hidx : gdf.idx = (List.range gdf.idx.length).map Int.ofNat) :
    ∀ l ∈ query_labels gdf z, l ∈ gdf.idx := by
  intro l hl
  obtain ⟨i, hi, _, rfl⟩ := (mem_query_labels gdf z l).mp hl
  rw [hidx]
  exact List.mem_map_of_mem _ (List.mem_range.mpr (by omega))

/-- On a well-formed default-range-index frame the tagger completes without a
KeyError. -/
theorem make_pipf_isSome_of_range (gdf : GeoDF) (z : List Geom) (d : String)
    (hwf : gdf.geoms.length = gdf.idx.length)
    (hidx : gdf.idx = (List.range gdf.idx.length).map Int.ofNat) :
    (make_point_in_polygon_feature gdf z d).isSome = true := by
  unfold make_point_in_polygon_feature locSetTrue
  dsimp only
  have hall : ((query_labels gdf z).all fun l =>
      (setCol gdf d (List.replicate gdf.nrows false)).idx.contains l) = true := by
    rw [List.all_eq_true]
    intro l hl
    rw [setCol_idx, contains_iff_mem_int]
    exact query_labels_mem_idx gdf z hwf hidx l hl
  rw [if_pos hall]
  rfl

/-- get? of the default range index. -/
theorem range_map_get? (n j : Nat) (hj : j < n) :
    ((List.range n).map Int.ofNat).get? j = some (Int.ofNat j) := by
  rw [List.get?_map, List.get?_range hj]
  rfl

/-- Whether a row position is in the query result, as a boolean, equals the
intersection test of the geometry of that row. -/
theorem query_contains_eq (gdf : GeoDF) (z : List Geom) (j : Nat) (g : Geom)
    (hg : gdf.geoms.get? j = some g) :
    (query_labels gdf z).contains (Int.ofNat j) =
      decide ((g ∩ unary_union z).Nonempty) := by
  by_cases hne : (g ∩ unary_union z).Nonempty
  · rw [decide_eq_true hne]
    rw [contains_iff_mem_int, mem_query_labels]
    exact ⟨j, lt_length_of_get?_some hg, by rwa [getD_eq_of_get?_some ∅ hg], rfl⟩
  · rw [decide_eq_false hne]
    by_contra hc
    have hmem : (query_labels gdf z).contains (Int.ofNat j) = true := by
      cases h2 : (query_labels gdf z).contains (Int.ofNat j) <;> simp_all
    rw [contains_iff_mem_int, mem_query_labels] at hmem
    obtain ⟨i, hi, hne2, hii⟩ := hmem
    have hij : j = i := Int.ofNat.inj hii
    subst hij
    rw [getD_eq_of_get?_some ∅ hg] at hne2
    exact hne hne2

/-- C9: Under the precondition that the row index of the input point dataset
equals its positional order (the default 0..n-1 range index), the zone
membership tagger completes and marks exactly the rows whose geometry
intersects the zone union: the spatial-index query returns positional row
numbers and the function applies them as index labels, and under this
row-label/position agreement the marked rows are the intersecting rows. -/
theorem make_point_in_polygon_feature_marks_intersecting_rows_on_range_index
    (gdf : GeoDF) (z : List Geom) (d : String)
    (hwf : gdf.geoms.length = gdf.idx.length)
    (hidx : gdf.idx = (List.range gdf.idx.length).map Int.ofNat) :
    (make_point_in_polygon_feature gdf z d).isSome = true ∧
    ∀ j g, gdf.geoms.get? j = some g →
      (colVal ((make_point_in_polygon_feature gdf z d).getD gdf) d j = true ↔
        (g ∩ unary_union z).Nonempty) := by
  refine ⟨make_pipf_isSome_of_range gdf z d hwf hidx, ?_⟩
  intro j g hg
  rcases hm : make_point_in_polygon_feature gdf z d with _ | out
  · have hs := make_pipf_isSome_of_range gdf z d hwf hidx
    rw [hm] at hs
    exact absurd hs (by simp)
  · simp only [Option.getD_some]
    rw [make_pipf_colVal gdf z d out hm j]
    have hj : j < gdf.geoms.length := lt_length_of_get?_some hg
    have hj' : j < gdf.idx.length := by omega
    have hij : gdf.idx.get? j = some (Int.ofNat j) := by
      conv_lhs => rw [hidx]
      exact range_map_get? _ _ hj'
    rw [hij]
    simp only [Option.map_some', Option.getD_some]
    rw [query_contains_eq gdf z j g hg]
    exact decide_eq_true_iff

/-- Witness for the range-index tagger theorem at a concrete frame. -/
theorem make_pipf_marks_intersecting_witness :
    (make_point_in_polygon_feature gdfW zoneA "flood_zone").isSome = true ∧
    ∀ j g, gdfW.geoms.get? j = some g →
      (colVal ((make_point_in_polygon_feature gdfW zoneA "flood_zone").getD gdfW)
        "flood_zone" j = true ↔ (g ∩ unary_union zoneA).Nonempty) :=
  make_point_in_polygon_feature_marks_intersecting_rows_on_range_index
    gdfW zoneA "flood_zone" (by decide) (by decide)

/-- The column list of the tagger output when the zone column is fresh: the
input columns followed by the one new column. -/
theorem make_pipf_fresh_cols (gdf : GeoDF) (z : List Geom) (d : String)
    (out : GeoDF) (h : make_point_in_polygon_feature gdf z d = some out)
    (hfresh : ∀ c ∈ gdf.cols, c.1 ≠ d) :
    out.cols = gdf.cols ++
      [(d, setTrueAt (query_labels gdf z) gdf.idx
        (List.replicate gdf.nrows false))] := by
  have hany : (gdf.cols.any fun c => c.1 == d) = false := by
    rw [List.any_eq_false]
    intro c hc
    simpa using hfresh c hc
  have hset : setCol gdf d (List.replicate gdf.nrows false) =
      { gdf with cols := gdf.cols ++ [(d, List.replicate gdf.nrows false)] } := by
    unfold setCol
    rw [if_neg (by simp [hany])]
  unfold make_point_in_polygon_feature locSetTrue at h
  dsimp only at h
  split at h
  case isFalse => exact absurd h (by simp)
  case isTrue hall =>
    have hout := (Option.some.inj h).symm
    subst hout
    show ((setCol gdf d (List.replicate gdf.nrows false)).cols.map _) = _
    rw [hset]
    rw [List.map_append]
    have h1 : gdf.cols.map (fun c =>
        if c.1 == d then
          (c.1, setTrueAt (query_labels gdf z)
            ({ gdf with cols := gdf.cols ++
              [(d, List.replicate gdf.nrows false)] } : GeoDF).idx c.2)
        else c) = gdf.cols := by
      rw [List.map_congr_left (g := id), List.map_id]
      intro c hc
      have : (c.1 == d) = false := by simpa using hfresh c hc
      simp [this]
    rw [h1]
    simp

/-- The assigned column under the range-index precondition is exactly the
membership column the specification describes. -/
theorem setTrueAt_query_eq_spec (gdf : GeoDF) (z : List Geom)
    (hwf : gdf.geoms.length = gdf.idx.length)
    (hidx : gdf.idx = (List.range gdf.idx.length).map Int.ofNat) :
    setTrueAt (query_labels gdf z) gdf.idx (List.replicate gdf.nrows false) =
      membership_column_spec gdf z := by
  apply List.ext_get?
  intro j
  by_cases hj : j < gdf.idx.length
  · have hij : gdf.idx.get? j = some (Int.ofNat j) := by
      conv_lhs => rw [hidx]
      exact range_map_get? _ _ hj
    have hv := get?_replicate_of_lt false gdf.nrows j (by simpa [GeoDF.nrows] using hj)
    rw [setTrueAt_get? _ _ _ j _ false hij hv]
    obtain ⟨g, hg⟩ : ∃ g, gdf.geoms.get? j = some g := by
      have hjg : j < gdf.geoms.length := by omega
      exact ⟨_, List.get?_eq_get hjg⟩
    unfold membership_column_spec
    rw [List.get?_map, hg]
    simp only [Option.map_some', Bool.or_false]
    rw [query_contains_eq gdf z j g hg]
  · have hLlen : (setTrueAt (query_labels gdf z) gdf.idx
        (List.replicate gdf.nrows false)).length ≤ j := by
      rw [setTrueAt_length]
      simp only [List.length_replicate, GeoDF.nrows]
      omega
    have hRlen : (membership_column_spec gdf z).length ≤ j := by
      unfold membership_column_spec
      rw [List.length_map]
      omega
    rw [List.get?_eq_none.mpr hLlen, List.get?_eq_none.mpr hRlen]

/-- C1 (amended): under the precondition that the point dataset has the
default 0..n-1 range index and does not already have a column named
zone_descr, the zone membership tagger returns the same dataset with exactly
one additional boolean column named zone_descr, false by default and true
for exactly those points whose geometry intersects the union of the zone
layer geometries. -/
theorem make_point_in_polygon_feature_appends_membership_column
    (gdf : GeoDF) (z : List Geom) (d : String)
    (hwf : gdf.geoms.length = gdf.idx.length)
    (hidx : gdf.idx = (List.range gdf.idx.length).map Int.ofNat)
    (hfresh : ∀ c ∈ gdf.cols, c.1 ≠ d) :
    make_point_in_polygon_feature gdf z d =
      some { idx := gdf.idx, geoms := gdf.geoms,
             cols := gdf.cols ++ [(d, membership_column_spec gdf z)] } := by
  have hs := make_pipf_isSome_of_range gdf z d hwf hidx
  rcases hm : make_point_in_polygon_feature gdf z d with _ | out
  · rw [hm] at hs
    exact absurd hs (by simp)
  · obtain ⟨hio, hgo, -⟩ := make_pipf_some gdf z d out hm
    have hco := make_pipf_fresh_cols gdf z d out hm hfresh
    rw [setTrueAt_query_eq_spec gdf z hwf hidx] at hco
    cases out with
    | mk oidx ogeoms ocols =>
      simp only at hio hgo hco
      rw [hio, hgo, hco]

/-- Witness for the amended tagger column theorem at a concrete frame. -/
theorem make_pipf_appends_membership_column_witness :
    make_point_in_polygon_feature gdfW zoneA "flood_zone" =
      some { idx := gdfW.idx, geoms := gdfW.geoms,
             cols := gdfW.cols ++
               [("flood_zone", membership_column_spec gdfW zoneA)] } :=
  make_point_in_polygon_feature_appends_membership_column gdfW zoneA "flood_zone"
    (by decide) (by decide) (by decide)

/-- C1 counterexample: on a point dataset whose index labels are not in
positional order the tagger marks the wrong rows: the first point intersects
the zone but its column value is false, while the second point does not
intersect the zone and its column value is true. -/
theorem make_pipf_mislabels_on_permuted_index :
    ((gdfX.geoms.getD 0 ∅) ∩ unary_union zoneA).Nonempty ∧
    ¬((gdfX.geoms.getD 1 ∅) ∩ unary_union zoneA).Nonempty ∧
    make_point_in_polygon_feature gdfX zoneA "in_zone" =
      some { idx := [1, 0], geoms := [{(0, 0)}, {(5, 5)}],
             cols := [("in_zone", [false, true])] } := by
  refine ⟨by decide, by decide, by decide⟩

/-- Every column the assignment `df[name] = vals` leaves under that name
holds the assigned values. -/
theorem setCol_named (g : GeoDF) (d : String) (v : List Bool) :
    ∀ c ∈ (setCol g d v).cols, c.1 = d → c.2 = v := by
  unfold setCol
  split
  case isTrue h =>
    intro c hc hcd
    rw [List.mem_map] at hc
    obtain ⟨c0, hc0, rfl⟩ := hc
    by_cases h0 : (c0.1 == d) = true
    · simp [h0]
    · have h0' : (c0.1 == d) = false := by
        cases h2 : (c0.1 == d) <;> simp_all
      rw [if_neg (by simp [h0'])] at hcd ⊢
      exact absurd hcd (by simpa using h0')
  case isFalse h =>
    intro c hc hcd
    rw [List.mem_append] at hc
    rcases hc with hc | hc
    · exfalso
      apply h
      rw [List.any_eq_true]
      exact ⟨c, hc, by simpa using hcd⟩
    · rw [List.mem_singleton] at hc
      rw [hc]

/-- A label assignment with no labels changes nothing (for a column of the
length of the index). -/
theorem setTrueAt_nil (idx : List ℤ) (vals : List Bool)
    (h : vals.length = idx.length) : setTrueAt [] idx vals = vals := by
  induction idx generalizing vals with
  | nil =>
    cases vals with
    | nil => rfl
    | cons b vs => simp at h
  | cons a idx ih =>
    cases vals with
    | nil => simp at h
    | cons b vs =>
      simp only [List.length_cons] at h
      show (List.contains [] a || b) :: setTrueAt [] idx vs = b :: vs
      rw [ih vs (by omega)]
      rfl

/-- The tagger queries no position against an empty zone layer: the union of
an empty layer is the empty geometry, which intersects nothing. -/
theorem query_labels_nil (gdf : GeoDF) : query_labels gdf [] = [] := by
  unfold query_labels sindex_query_intersects
  have : ∀ i ∈ List.range gdf.geoms.length,
      ¬(decide (((gdf.geoms.getD i ∅) ∩ unary_union []).Nonempty) = true) := by
    intro i _
    simp [unary_union]
  rw [List.filter_eq_nil.mpr this]
  rfl

/-- C6: on a zone layer with zero polygons the zone membership tagger
completes without error on any point dataset of any size and produces a
membership column that is false for all rows. -/
theorem make_pipf_empty_zone_layer_all_false (gdf : GeoDF) (d : String) :
    make_point_in_polygon_feature gdf [] d =
      some (setCol gdf d (List.replicate gdf.nrows false)) ∧
    getCol (setCol gdf d (List.replicate gdf.nrows false)) d =
      some (List.replicate gdf.nrows false) := by
  constructor
  · unfold make_point_in_polygon_feature locSetTrue
    dsimp only
    rw [query_labels_nil]
    rw [if_pos (by simp)]
    have hmap : (setCol gdf d (List.replicate gdf.nrows false)).cols.map
        (fun c => if c.1 == d then
          (c.1, setTrueAt []
            (setCol gdf d (List.replicate gdf.nrows false)).idx c.2) else c) =
        (setCol gdf d (List.replicate gdf.nrows false)).cols := by
      rw [List.map_congr_left (g := id), List.map_id]
      intro c hc
      by_cases h0 : (c.1 == d) = true
      · have hv : c.2 = List.replicate gdf.nrows false :=
          setCol_named gdf d _ c hc (by simpa using h0)
        rw [if_pos h0, setCol_idx, hv,
          setTrueAt_nil gdf.idx _ (by simp [GeoDF.nrows]), ← hv]
        rfl
      · have h0' : (c.1 == d) = false := by
          cases h2 : (c.1 == d) <;> simp_all
        simp [h0']
    rw [hmap]
  · exact getCol_setCol gdf d _

/-- C7: if the unioned geometry of zone layer B is a superset of that of zone layer A,
every point the tagger tags true for zone A is also tagged true for zone B
(row positions compared across the two successful runs on the same
dataset). -/
theorem make_pipf_monotone_under_zone_superset
    (gdf : GeoDF) (zA zB : List Geom) (d : String) (outA outB : GeoDF)
    (hsub : unary_union zA ⊆ unary_union zB)
    (hA : make_point_in_polygon_feature gdf zA d = some outA)
    (hB : make_point_in_polygon_feature gdf zB d = some outB)
    (j : Nat) (hj : colVal outA d j = true) :
    colVal outB d j = true := by
  rw [make_pipf_colVal gdf zA d outA hA j] at hj
  rw [make_pipf_colVal gdf zB d outB hB j]
  rcases hidx : gdf.idx.get? j with _ | l
  · rw [hidx] at hj
    simp at hj
  · rw [hidx] at hj
    simp only [Option.map_some', Option.getD_some] at hj ⊢
    rw [contains_iff_mem_int, mem_query_labels] at hj ⊢
    obtain ⟨i, hi, hne, rfl⟩ := hj
    refine ⟨i, hi, ?_, rfl⟩
    obtain ⟨x, hx⟩ := hne
    rw [Finset.mem_inter] at hx
    exact ⟨x, Finset.mem_inter.mpr ⟨hx.1, hsub hx.2⟩⟩

/-- Witness for zone monotonicity: the first point of gdfW is tagged for the
smaller layer zoneA and is also tagged for the superset layer zoneB. -/
theorem make_pipf_monotone_under_zone_superset_witness :
    colVal outBW "near" 0 = true :=
  make_pipf_monotone_under_zone_superset gdfW zoneA zoneB "near" outAW outBW
    (by decide) (by decide) (by decide) 0 (by decide)

/-- C2: on a point dataset with at least one true-labeled point, every point
the extension leaves labeled true either was true in the input or lies
within the convex hull of the union of true-labeled input point
geometries; equivalently, no point outside that hull is ever relabeled from
false to true. -/
theorem extend_true_labels_from_input_or_hull
    (rows out : List NoiseRow)
    (hsome : ∃ r ∈ rows, r.ohare_noise = true)
    (hout : extend_cc_residential_prop_chars_ohare_noise_zone rows =
      Except.ok out)
    (j : Nat) (r rout : NoiseRow)
    (hr : rows.get? j = some r) (hrout : out.get? j = some rout)
    (htrue : rout.ohare_noise = true) :
    r.ohare_noise = true ∨ within_hull (truePts rows) r.geom = true := by
  unfold extend_cc_residential_prop_chars_ohare_noise_zone at hout
  dsimp only at hout
  split at hout
  · exact absurd hout (by simp)
  · have hmap := Except.ok.inj hout
    rw [← hmap, List.get?_map, hr] at hrout
    simp only [Option.map_some'] at hrout
    rw [Option.some.injEq] at hrout
    by_cases hw : within_hull (truePts rows) r.geom = true
    · exact Or.inr hw
    · left
      have hre : rout = r := by
        rw [← hrout]
        simp [hw]
      rw [hre] at htrue
      exact htrue

/-- Witness for the hull-containment theorem: the relabeled midpoint row of
rowsW lies within the hull of the true corner points. -/
theorem extend_true_labels_from_input_or_hull_witness :
    ({ geom := {(2, 2)}, ohare_noise := false } : NoiseRow).ohare_noise = true ∨
    within_hull (truePts rowsW) ({(2, 2)} : Geom) = true :=
  extend_true_labels_from_input_or_hull rowsW outRW
    (by decide) (by rfl) 2
    { geom := {(2, 2)}, ohare_noise := false }
    { geom := {(2, 2)}, ohare_noise := true }
    (by decide) (by decide) (by decide)

/-- C10: the extension never changes a label from true to false: every point
labeled true in the input (on or off the hull boundary) is still labeled
true in the output. -/
theorem extend_preserves_true_labels
    (rows out : List NoiseRow)
    (hsome : ∃ r ∈ rows, r.ohare_noise = true)
    (hout : extend_cc_residential_prop_chars_ohare_noise_zone rows =
      Except.ok out)
    (j : Nat) (r rout : NoiseRow)
    (hr : rows.get? j = some r) (hrout : out.get? j = some rout)
    (htrue : r.ohare_noise = true) :
    rout.ohare_noise = true := by
  unfold extend_cc_residential_prop_chars_ohare_noise_zone at hout
  dsimp only at hout
  split at hout
  · exact absurd hout (by simp)
  · have hmap := Except.ok.inj hout
    rw [← hmap, List.get?_map, hr] at hrout
    simp only [Option.map_some'] at hrout
    rw [Option.some.injEq] at hrout
    by_cases hw : within_hull (truePts rows) r.geom = true
    · rw [← hrout]
      simp [hw]
    · rw [← hrout]
      simp only [hw]
      simpa using htrue

/-- Witness for label preservation: the true corner point of rowsW, which
lies on the hull boundary, is still true in the output. -/
theorem extend_preserves_true_labels_witness :
    ({ geom := {(9, 9)}, ohare_noise := false } : NoiseRow).ohare_noise = true ∨
    ({ geom := {(0, 0)}, ohare_noise := true } : NoiseRow).ohare_noise = true :=
  Or.inr (extend_preserves_true_labels rowsW outRW
    (by decide) (by rfl) 0
    { geom := {(0, 0)}, ohare_noise := true }
    { geom := {(0, 0)}, ohare_noise := true }
    (by decide) (by decide) (by decide))

/-- C5 (the code evaluated at the failing input): on a dataset in which no
point is labeled true, the extension neither returns a result nor raises a
deliberate descriptive error: it dies with an uncaught exception produced by
the empty geometry selection. -/
theorem extend_crashes_on_frame_without_true_labels :
    extend_cc_residential_prop_chars_ohare_noise_zone rowsF =
      Except.error "uncaught exception from the empty OHare Noise selection" := by
  rfl

/-- C8 (amended): the contiguous label extension copies its input and leaves
the frame of the caller unchanged, but the zone membership tagger is not a pure
transform: it writes its new column into the frame of the caller in place (the
overlay engine takes no dataset argument from a caller at all). -/
theorem core_transforms_mutation_behavior :
    (∀ rows : List NoiseRow,
      extend_cc_residential_prop_chars_ohare_noise_zone_caller_gdf rows = rows) ∧
    (∃ gdf : GeoDF, ∃ z : List Geom, ∃ d : String,
      make_point_in_polygon_feature_caller_gdf gdf z d ≠ gdf) :=
  ⟨fun _ => rfl, ⟨gdfC, zoneA, "in_zone", by decide⟩⟩

/-- C8 counterexample: after a tagger call the one-point frame of the caller has
gained the zone column, so the dataset object the caller passed in is not
unchanged. -/
theorem zone_tagger_mutates_caller_frame :
    make_point_in_polygon_feature_caller_gdf gdfC zoneA "in_zone" ≠ gdfC := by
  decide

/-- The fragment rows the overlay produces for one tract: one per
neighborhood with a nonempty intersection, carrying the attributes of the
tract on both join halves and the intersection geometry. -/
theorem mem_tract_fragment_rows (nbhds : List NbhdRow) (t : TractRow) (f : Frag) :
    f ∈ tract_fragment_rows nbhds t ↔
      ∃ nb ∈ nbhds, (t.geometry ∩ nb.geometry).Nonempty ∧
        f = { tract_attrs_left := t.attrs, tract_attrs_right := t.attrs,
              nbhd := nb.nbhd, town_nbhd := nb.town_nbhd,
              township_n := nb.township_n,
              geometry := t.geometry ∩ nb.geometry } := by
  unfold tract_fragment_rows tract_sjoin overlay_tract_nbhd
  simp only [List.mem_flatMap, List.mem_map, List.mem_filter, decide_eq_true_eq]
  constructor
  · rintro ⟨jrow, ⟨nb, ⟨hnb, hne⟩, rfl⟩, hf⟩
    rw [if_pos (by rwa [Finset.inter_comm] at hne)] at hf
    rw [List.mem_singleton] at hf
    exact ⟨nb, hnb, by rwa [Finset.inter_comm] at hne, hf⟩
  · rintro ⟨nb, hnb, hne, rfl⟩
    refine ⟨(nb, t.attrs), ⟨nb, ⟨hnb, by rwa [Finset.inter_comm] at hne⟩, rfl⟩, ?_⟩
    rw [if_pos hne]
    exact List.mem_singleton.mpr rfl

/-- In a loop run that returns, every listed tract contributed a successful
per-tract fragment list that is a sublist of the concatenation. -/
theorem overlay_loop_ok_of_mem (nbhds : List NbhdRow) (ts : List TractRow)
    (frags : List Frag) (h : overlay_loop nbhds ts = Except.ok frags)
    (t : TractRow) (ht : t ∈ ts) :
    ∃ tf, tract_fragments nbhds t = Except.ok tf ∧ tf.Sublist frags := by
  induction ts generalizing frags with
  | nil => cases ht
  | cons t0 ts ih =>
    unfold overlay_loop at h
    rcases h0 : tract_fragments nbhds t0 with e | tf0
    · rw [h0] at h
      exact absurd h (by simp [Except.bind])
    · rw [h0] at h
      rcases h1 : overlay_loop nbhds ts with e | rest
      · rw [h1] at h
        exact absurd h (by simp [Except.bind, Except.map])
      · rw [h1] at h
        simp only [Except.bind, Except.map, Except.ok.injEq] at h
        rcases List.mem_cons.mp ht with rfl | ht2
        · exact ⟨tf0, h0, h ▸ tf0.sublist_append_left rest⟩
        · obtain ⟨tf, htf, hsub⟩ := ih rest h1 ht2
          exact ⟨tf, htf, h ▸ hsub.trans (List.sublist_append_right _ _)⟩

/-- A successful per-tract fragment computation returns exactly the
flattened overlay rows. -/
theorem tract_fragments_ok (nbhds : List NbhdRow) (t : TractRow)
    (tf : List Frag) (h : tract_fragments nbhds t = Except.ok tf) :
    tf = tract_fragment_rows nbhds t := by
  unfold tract_fragments at h
  split at h
  · exact absurd h (by simp)
  · exact ((Except.ok.inj h)).symm

/-- C3: in every run of the overlay engine that returns, for every input
tract that the water-sentinel filter keeps, the per-tract concatenation
succeeded, its fragments appear in the returned raw output, and their union
equals the intersection of the geometry of the tract with the union of all
neighborhood polygons: no gaps and nothing outside the tract or the
neighborhood coverage. -/
theorem split_fragments_cover_tract_inter_nbhds
    (tracts : List TractRow) (nbhds : List NbhdRow) (t : TractRow)
    (frags : List Frag)
    (hmem : t ∈ tracts) (hwater : t.AWATER10 ≠ maxAWATER tracts)
    (hrun : split_raw tracts nbhds = Except.ok frags) :
    tract_fragments nbhds t = Except.ok (tract_fragment_rows nbhds t) ∧
    (tract_fragment_rows nbhds t).Sublist frags ∧
    unary_union ((tract_fragment_rows nbhds t).map (fun f => f.geometry)) =
      t.geometry ∩ unary_union (nbhds.map (fun nb => nb.geometry)) := by
  have hkept : t ∈ water_filtered tracts := by
    unfold water_filtered
    rw [List.mem_filter]
    exact ⟨hmem, by simp [hwater]⟩
  unfold split_raw at hrun
  split at hrun
  case isTrue hempty => exact absurd hrun (by simp)
  case isFalse hne =>
    obtain ⟨tf, htf, hsub⟩ :=
      overlay_loop_ok_of_mem nbhds (water_filtered tracts) frags hrun t hkept
    have hrows := tract_fragments_ok nbhds t tf htf
    subst hrows
    refine ⟨htf, hsub, ?_⟩
    apply Finset.ext
    intro p
    rw [Finset.mem_inter, mem_unary_union]
    constructor
    · rintro ⟨g, hg, hp⟩
      rw [List.mem_map] at hg
      obtain ⟨f, hf, rfl⟩ := hg
      rw [mem_tract_fragment_rows] at hf
      obtain ⟨nb, hnb, hne2, rfl⟩ := hf
      simp only [Finset.mem_inter] at hp
      exact ⟨hp.1, mem_unary_union.mpr
        ⟨nb.geometry, List.mem_map_of_mem _ hnb, hp.2⟩⟩
    · rintro ⟨hpt, hpn⟩
      rw [mem_unary_union] at hpn
      obtain ⟨g, hg, hp⟩ := hpn
      rw [List.mem_map] at hg
      obtain ⟨nb, hnb, rfl⟩ := hg
      refine ⟨t.geometry ∩ nb.geometry, ?_,
        Finset.mem_inter.mpr ⟨hpt, hp⟩⟩
      refine List.mem_map.mpr
        ⟨{ tract_attrs_left := t.attrs, tract_attrs_right := t.attrs,
           nbhd := nb.nbhd, town_nbhd := nb.town_nbhd,
           township_n := nb.township_n,
           geometry := t.geometry ∩ nb.geometry }, ?_, rfl⟩
      rw [mem_tract_fragment_rows]
      exact ⟨nb, hnb, ⟨p, Finset.mem_inter.mpr ⟨hpt, hp⟩⟩, rfl⟩

/-- Witness for the coverage theorem: a two-tract layer with the watery
tract filtered out, one neighborhood, and the completed run returning the
single fragment of the kept tract. -/
theorem split_fragments_cover_tract_inter_nbhds_witness :
    tract_fragments [nbW] tractT = Except.ok (tract_fragment_rows [nbW] tractT) ∧
    (tract_fragment_rows [nbW] tractT).Sublist fragsTW ∧
    unary_union ((tract_fragment_rows [nbW] tractT).map (fun f => f.geometry)) =
      tractT.geometry ∩ unary_union ([nbW].map (fun nb => nb.geometry)) :=
  split_fragments_cover_tract_inter_nbhds [tractT, tractU] [nbW] tractT fragsTW
    (by decide) (by decide) (by rfl)

/-- C4: if the tract-identifying attributes of any output fragment differ between
the left (tract) copy and the right (neighborhood) copy retained by the
overlay, the validation step raises an AssertionError instead of warning or
passing the frame through; split_cc_census_tracts_by_neighborhood returns
only through this validation. -/
theorem validate_split_tracts_raises_on_attr_mismatch (frags : List Frag)
    (h : ∃ f ∈ frags, f.tract_attrs_left ≠ f.tract_attrs_right) :
    validate_split_tracts frags = Except.error "AssertionError" := by
  unfold validate_split_tracts
  rw [if_neg]
  intro hall
  rw [List.all_eq_true] at hall
  obtain ⟨f, hf, hne⟩ := h
  have hc := hall f hf
  unfold tract_attrs_consistent at hc
  rw [beq_iff_eq] at hc
  exact hne hc

/-- Witness for the validation theorem at a concrete mismatched fragment. -/
theorem validate_split_tracts_raises_on_attr_mismatch_witness :
    validate_split_tracts [fragBad] = Except.error "AssertionError" :=
  validate_split_tracts_raises_on_attr_mismatch [fragBad]
    ⟨fragBad, by decide, by decide⟩
